import Mathlib

/-!
Verification development for the table-adapter layer of a React UI library
binding an entity-metadata REST platform to a grid widget.

The embedded source is `src/unnamed/part_000`, a single TypeScript module with
the functions `generateColumnWithCustomFilter`, `generateEnumFilter`,
`setFilters`, `setSorter`, `setPagination`, `handleTableChange` and
`entityFilterToTableFilters`.

Modelling conventions:

* JSON values are the inductive `Json` (numbers as integers).  A table-filter
  cell is a *string* in the source; every cell that the code ever passes to
  `JSON.parse` is produced by `JSON.stringify`, so a cell is modelled by the
  `Json` tree it (de)serializes to, and `JSON.parse` becomes the identity on
  this representation.
* A JavaScript record (plain object) is an insertion-ordered association list
  `List (String × α)`; property assignment (`recSet`) overwrites in place,
  property read (`recGet`) returns `Option`.  A nullable stored value is an
  inner `Option`.
* JavaScript `undefined` on condition payloads is `Option.none` / `JsVal.undefVal`.
* Mutation of the externally owned `DataCollectionStore` is modelled by
  explicit state passing: each setter returns the updated store.  The inputs
  (`mainStore`, the table filters / sorter / pagination objects) are plain
  values in the embedding, so the read-only use the source makes of them is immediate.
-/

/-- A JSON value.  Numbers are modelled as integers (the claims under
consideration never depend on fractional numerics). -/
inductive Json where
  | null : Json
  | bool (b : Bool) : Json
  | num (n : Int) : Json
  | str (s : String) : Json
  | arr (elems : List Json) : Json
  | obj (fields : List (String × Json)) : Json
deriving Repr

/-- JavaScript record read `r[k]`: the value stored under the first (hence, by
construction of `recSet`, the only) occurrence of the key, if any. -/
def recGet {α : Type} (r : List (String × α)) (k : String) : Option α :=
  match r with
  | [] => none
  | (k', v) :: rest => if k' = k then some v else recGet rest k

/-- JavaScript record assignment `r[k] = v`: overwrite in place when the key
exists, else append (insertion order preserved, as in a JS object). -/
def recSet {α : Type} (r : List (String × α)) (k : String) (v : α) :
    List (String × α) :=
  match r with
  | [] => [(k, v)]
  | (k', v') :: rest =>
      if k' = k then (k', v) :: rest else (k', v') :: recSet rest k v

/-- Key lookup on a parsed JSON value, as JS property access / destructuring:
an object yields the stored value or `undefined`; any non-object base yields
`undefined` for the purposes of the claims. -/
def Json.lookupKey (j : Json) (k : String) : Option Json :=
  match j with
  | .obj fields => recGet fields k
  | _ => none

/-- Destructuring `const {k} = v` where `v` is itself the (possibly
`undefined`) result of a previous lookup. -/
def jsGetField (v : Option Json) (k : String) : Option Json :=
  match v with
  | some j => j.lookupKey k
  | none => none

/-- JS strict equality of `v` with the string `inInterval` on a (possibly `undefined`) parsed
value: true exactly when the value is that string. -/
def isInIntervalOp : Option Json → Bool
  | some (Json.str s) => s = "inInterval"
  | _ => false

/-- A JavaScript runtime value stored in the `value` slot of a filter condition:
`undefined`, a JSON-representable value, or the raw array of table-filter cell
strings (the ENUM branch stores the filter array itself). -/
inductive JsVal where
  | undefVal : JsVal
  | jv (j : Json) : JsVal
  | cells (cs : List Json) : JsVal
deriving Repr

/-- Lift an optional lookup result (JS value-or-undefined) to `JsVal`. -/
def JsVal.ofOpt : Option Json → JsVal
  | some j => .jv j
  | none => .undefVal

/-- The JSON tree that `JSON.stringify` produces for a `JsVal` placed in an
object; `undefined` produces no tree (its key is dropped). -/
def JsVal.toJsonOpt : JsVal → Option Json
  | .undefVal => none
  | .jv j => some j
  | .cells cs => some (Json.arr cs)

/-- A plain filter condition (`Condition` of the REST client): property name,
operator (a JS value, `Json.str` for the well-typed case, possibly
`undefined`), and value. -/
structure Condition where
  property : String
  operator : Option Json
  value : JsVal
deriving Repr

/-- An element of `EntityFilter.conditions`: either a plain `Condition` or a
nested `ConditionsGroup` (which carries a group operator and sub-conditions;
the embedded code only ever tests for its presence). -/
inductive FilterItem where
  | cond (c : Condition) : FilterItem
  | group (groupType : String) (conditions : List FilterItem) : FilterItem
deriving Repr

/-- True exactly when the item is a nested conditions group, i.e. when the
JS membership test for a `conditions` key succeeds. -/
def FilterItem.isGroup : FilterItem → Bool
  | .cond _ => false
  | .group _ _ => true

/-- `EntityFilter` of the REST client: a list of conditions / groups. -/
structure EntityFilter where
  conditions : List FilterItem
deriving Repr

/-- Metadata record for one entity attribute (`MetaPropertyInfo` of the REST
client), restricted to the fields the embedded code reads. -/
structure MetaPropertyInfo where
  name : String
  attributeType : String
  type : String
deriving Repr

/-- One value of an enumeration (`EnumValueInfo` of the REST client). -/
structure EnumValueInfo where
  name : String
  caption : String
deriving Repr

/-- One enumeration (`EnumInfo` of the REST client). -/
structure EnumInfo where
  name : String
  values : List EnumValueInfo
deriving Repr

/-- The application store as the embedded code reads it: entity metadata and
the list of enumerations.  (The `MainStore` class lives outside the provided
sources; only these two read-only members are used by the embedded module.) -/
structure MainStore where
  metadata : String → String → MetaPropertyInfo
  enums : List EnumInfo

/-- Modelled from the spec: `getPropertyInfoNN` of `util/metadata` (a file of
this repository that is absent from the provided sources) resolves the
metadata record of property `propertyName` of entity `entityName`; per the
spec it consults the remote-fetched entity metadata, and the NN variant
insists the property exists, so it is modelled as a total lookup into the
metadata map. -/
def getPropertyInfoNN (propertyName : String) (entityName : String)
    (metadata : String → String → MetaPropertyInfo) : MetaPropertyInfo :=
  metadata entityName propertyName

/-- Modelled from the spec: the `DataCollectionStore` (defined in
`data/Collection`, absent from the provided sources) is the "external
abstraction owning pagination/filter/sort state and triggering reloads".
`rest` stands for all of its remaining state, and `loadEvents` counts
triggered reloads. -/
structure DataCollectionStore (ρ : Type) where
  entityName : String
  filter : Option EntityFilter
  sort : Option String
  limit : Option Nat
  offset : Option Nat
  loadEvents : Nat
  rest : ρ

/-- Modelled from the spec: `dataCollection.load()` triggers a reload of the
collection; its observable effect in the embedding is one reload event. -/
def DataCollectionStore.load {ρ : Type} (dc : DataCollectionStore ρ) :
    DataCollectionStore ρ :=
  { dc with loadEvents := dc.loadEvents + 1 }

/-- The table-filters record (`Record<string, string[]>` whose entries antd
may also set to `null`): keys are property names, values are nullable arrays
of cells. -/
abbrev TFRecord : Type := List (String × Option (List Json))

/-- The cell string written by `entityFilterToTableFilters` for one plain
condition: `JSON.stringify({operator: c.operator, value: c.value})`, an object
literal in which an `undefined` member is dropped. -/
def encodeCell (c : Condition) : Json :=
  Json.obj
    ((match c.operator with
      | some j => [("operator", j)]
      | none => []) ++
     (match c.value.toJsonOpt with
      | some j => [("value", j)]
      | none => []))

/-- The forEach loop of `entityFilterToTableFilters` (part_000:334-343): walk
the conditions, throwing on the first nested group, otherwise assigning the
one-element cell array under the property of the condition. -/
def entityFilterToTableFiltersAux (items : List FilterItem) (acc : TFRecord) :
    Except String TFRecord :=
  match items with
  | [] => .ok acc
  | .group _ _ :: _ =>
      .error "EntityFilter with ConditionsGroup cannot be converted to table filters"
  | .cond c :: restItems =>
      entityFilterToTableFiltersAux restItems
        (recSet acc c.property (some [encodeCell c]))

/-- `entityFilterToTableFilters` (part_000:331-346). -/
def entityFilterToTableFilters (entityFilter : EntityFilter) :
    Except String TFRecord :=
  entityFilterToTableFiltersAux entityFilter.conditions []

/-- Body of the `fields.forEach` loop of `setFilters` (part_000:202-242),
threading the optional accumulated `entityFilter`.  The guard
`tableFilters.hasOwnProperty(p) && tableFilters[p] && tableFilters[p].length > 0`
is the pattern `some (some (cell0 :: restCells))`. -/
def setFiltersStep (tableFilters : TFRecord) (mainStore : MainStore)
    (entityName : String) (entityFilter : Option EntityFilter)
    (propertyName : String) : Option EntityFilter :=
  match recGet tableFilters propertyName with
  | some (some (cell0 :: restCells)) =>
      -- if (!entityFilter) { entityFilter = { conditions: [] }; }
      let ef := match entityFilter with
        | none => ({ conditions := [] } : EntityFilter)
        | some ef0 => ef0
      if (getPropertyInfoNN propertyName entityName mainStore.metadata).attributeType
          = "ENUM" then
        some { conditions := ef.conditions ++
          [.cond ⟨propertyName, some (.str "in"), .cells (cell0 :: restCells)⟩] }
      else
        -- const {operator, value} = JSON.parse(tableFilters[propertyName][0]);
        let operator := cell0.lookupKey "operator"
        let value := cell0.lookupKey "value"
        if isInIntervalOp operator then
          -- const {minDate, maxDate} = value;
          let minDate := jsGetField value "minDate"
          let maxDate := jsGetField value "maxDate"
          some { conditions := ef.conditions ++
            [.cond ⟨propertyName, some (.str ">="), JsVal.ofOpt minDate⟩,
             .cond ⟨propertyName, some (.str "<="), JsVal.ofOpt maxDate⟩] }
        else
          some { conditions := ef.conditions ++
            [.cond ⟨propertyName, operator, JsVal.ofOpt value⟩] }
  | _ => entityFilter

/-- `setFilters` (part_000:193-246): fold the loop body over `fields` when
`tableFilters` is truthy, then assign `dataCollection.filter`. -/
def setFilters {ρ : Type} (tableFilters : Option TFRecord)
    (fields : List String) (mainStore : MainStore)
    (dataCollection : DataCollectionStore ρ) : DataCollectionStore ρ :=
  let entityFilter : Option EntityFilter :=
    match tableFilters with
    | some tf =>
        fields.foldl (setFiltersStep tf mainStore dataCollection.entityName) none
    | none => none
  { dataCollection with filter := entityFilter }

/-- antd `SorterResult`, restricted to the members the code reads: the sorted
field and the optional order (`ascend` or `descend`, absent when unsorted). -/
structure SorterResult where
  field : String
  order : Option String
deriving Repr

/-- JS `s.endsWith(suffix)`. -/
def jsEndsWith (s : String) (sfx : String) : Bool :=
  decide (sfx.toList.length ≤ s.toList.length) &&
  decide (s.toList.drop (s.toList.length - sfx.toList.length) = sfx.toList)

/-- Index of the first occurrence of a character in a character list. -/
def charIndexFrom (cs : List Char) (c : Char) : Option Nat :=
  match cs with
  | [] => none
  | a :: rest => if a = c then some 0 else (charIndexFrom rest c).map (· + 1)

/-- JS `s.indexOf(c)`: index of the first occurrence, `-1` when absent. -/
def jsIndexOf (s : String) (c : Char) : Int :=
  match charIndexFrom s.toList c with
  | some i => (i : Int)
  | none => -1

/-- JS `s.substring(0, i)` (a negative `i` clamps to 0). -/
def jsSubstringToIdx (s : String) (i : Int) : String :=
  String.mk (s.toList.take i.toNat)

/-- `setSorter` (part_000:256-271).  The guard `sorter && sorter.order`
requires the sorter to be present with a truthy (present, non-empty) order. -/
def setSorter {ρ : Type} (sorter : Option SorterResult) (defaultSort : String)
    (dataCollection : DataCollectionStore ρ) : DataCollectionStore ρ :=
  match sorter with
  | some s =>
      match s.order with
      | some ord =>
          if ord = "" then
            { dataCollection with sort := some defaultSort }
          else
            let sortOrderPfx : String := if ord = "descend" then "-" else "+"
            let sortField : String :=
              if jsEndsWith s.field "._instanceName" then
                jsSubstringToIdx s.field (jsIndexOf s.field '.')
              else
                s.field
            { dataCollection with sort := some (sortOrderPfx ++ sortField) }
      | none => { dataCollection with sort := some defaultSort }
  | none => { dataCollection with sort := some defaultSort }

/-- antd `PaginationConfig`, restricted to the members the code reads.  Page
size and current page are optional natural numbers (the widget supplies
non-negative integers). -/
structure PaginationConfig where
  pageSize : Option Nat
  current : Option Nat
deriving Repr

/-- `setPagination` (part_000:278-283).  The guard
`pagination && pagination.pageSize && pagination.current` requires both
numbers present and non-zero (`0` is falsy). -/
def setPagination {ρ : Type} (pagination : Option PaginationConfig)
    (dataCollection : DataCollectionStore ρ) : DataCollectionStore ρ :=
  match pagination with
  | some pg =>
      match pg.pageSize, pg.current with
      | some pageSize, some current =>
          if pageSize ≠ 0 ∧ current ≠ 0 then
            { dataCollection with
                limit := some pageSize,
                offset := some (pageSize * (current - 1)) }
          else dataCollection
      | _, _ => dataCollection
  | none => dataCollection

/-- `TableChangeDTO` (part_000:292-300). -/
structure TableChangeDTO (ρ : Type) where
  pagination : Option PaginationConfig
  filters : Option TFRecord
  sorter : Option SorterResult
  defaultSort : String
  fields : List String
  mainStore : MainStore
  dataCollection : DataCollectionStore ρ

/-- `handleTableChange` (part_000:307-323): apply the three setters in source
order, then reload the collection. -/
def handleTableChange {ρ : Type} (dto : TableChangeDTO ρ) :
    DataCollectionStore ρ :=
  let afterFilters :=
    setFilters dto.filters dto.fields dto.mainStore dto.dataCollection
  let afterSorter := setSorter dto.sorter dto.defaultSort afterFilters
  let afterPag := setPagination dto.pagination afterSorter
  afterPag.load

/-- antd `ColumnFilterItem`: caption/value pair of one dropdown entry. -/
structure ColumnFilterItem where
  text : String
  value : String
deriving Repr

/-- `generateEnumFilter` (part_000:118-134). -/
def generateEnumFilter (propertyInfo : MetaPropertyInfo)
    (mainStore : MainStore) : List ColumnFilterItem :=
  match mainStore.enums.find? (fun enumInfo => enumInfo.name = propertyInfo.type) with
  | none => []
  | some propertyEnumInfo =>
      propertyEnumInfo.values.map (fun enumValueInfo =>
        { text := enumValueInfo.caption, value := enumValueInfo.name })

/-- The claim-relevant projection of antd `ColumnProps` as built by
`generateColumnWithCustomFilter`: the purely presentational members (`title`,
`render`, the React component of the dropdown) are outside a shallow embedding, so
the custom filter dropdown is recorded by its presence. -/
structure ColumnProps where
  dataIndex : String
  sorter : Bool
  key : String
  filteredValue : Option (List Json)
  filters : Option (List ColumnFilterItem)
  filterDropdown : Bool
deriving Repr

/-- The claim-relevant projection of `ColumnWithCustomFilterConfig`
(part_000:23-34); the React callback members do not influence the modelled
output. -/
structure ColumnWithCustomFilterConfig where
  propertyName : String
  entityName : String
  filters : Option TFRecord
  enableSorter : Bool
  mainStore : MainStore

/-- The `switch (propertyInfo.attributeType)` statement of
`generateColumnWithCustomFilter` (part_000:57-64) computing `dataIndex`. -/
def dataIndexOfAttr (attributeType : String) (propertyName : String) : String :=
  match attributeType with
  | "COMPOSITION" => propertyName ++ "._instanceName"
  | "ASSOCIATION" => propertyName ++ "._instanceName"
  | _ => propertyName

/-- `generateColumnWithCustomFilter` (part_000:40-110). -/
def generateColumnWithCustomFilter (config : ColumnWithCustomFilterConfig) :
    ColumnProps :=
  let propertyInfo :=
    getPropertyInfoNN config.propertyName config.entityName config.mainStore.metadata
  let dataIndex : String :=
    dataIndexOfAttr propertyInfo.attributeType config.propertyName
  let filteredValue : Option (List Json) :=
    match config.filters with
    | some fs =>
        match recGet fs config.propertyName with
        | some (some arrv) => some arrv
        | _ => none
    | none => none
  let defaultColumnProps : ColumnProps :=
    { dataIndex := dataIndex
      sorter := config.enableSorter
      key := config.propertyName
      filteredValue := filteredValue
      filters := none
      filterDropdown := false }
  if propertyInfo.attributeType = "ENUM" then
    { defaultColumnProps with
        filters := some (generateEnumFilter propertyInfo config.mainStore) }
  else
    { defaultColumnProps with filterDropdown := true }

/-- The list of conditions the `setFilters` loop body appends for one element
of `fields` (empty when the field has no active table filter).  This is the
specification-side restatement of `setFiltersStep`; `setFiltersStep_eq_combine`
proves they agree. -/
def condsForField (tableFilters : TFRecord) (mainStore : MainStore)
    (entityName : String) (propertyName : String) : List FilterItem :=
  match recGet tableFilters propertyName with
  | some (some (cell0 :: restCells)) =>
      if (getPropertyInfoNN propertyName entityName mainStore.metadata).attributeType
          = "ENUM" then
        [.cond ⟨propertyName, some (.str "in"), .cells (cell0 :: restCells)⟩]
      else if isInIntervalOp (cell0.lookupKey "operator") then
        [.cond ⟨propertyName, some (.str ">="),
           JsVal.ofOpt (jsGetField (cell0.lookupKey "value") "minDate")⟩,
         .cond ⟨propertyName, some (.str "<="),
           JsVal.ofOpt (jsGetField (cell0.lookupKey "value") "maxDate")⟩]
      else
        [.cond ⟨propertyName, cell0.lookupKey "operator",
           JsVal.ofOpt (cell0.lookupKey "value")⟩]
  | _ => []

/-- Concatenation of `condsForField` over a list of fields, in order. -/
def condsForFields (tableFilters : TFRecord) (mainStore : MainStore)
    (entityName : String) (fields : List String) : List FilterItem :=
  match fields with
  | [] => []
  | p :: rest =>
      condsForField tableFilters mainStore entityName p ++
      condsForFields tableFilters mainStore entityName rest

/-- How one loop iteration combines the optional accumulated filter with the
freshly pushed conditions: a missing accumulator is created exactly when at
least one condition is pushed. -/
def combine (acc : Option EntityFilter) (cs : List FilterItem) :
    Option EntityFilter :=
  match acc, cs with
  | some ef, cs => some ⟨ef.conditions ++ cs⟩
  | none, [] => none
  | none, c :: rest => some ⟨c :: rest⟩

/-- The sub-list of plain conditions bearing a given property name. -/
def condsOfProp (items : List FilterItem) (p : String) : List FilterItem :=
  items.filter (fun item =>
    match item with
    | .cond c => decide (c.property = p)
    | .group _ _ => false)

/-- The guard of the `setFilters` loop body
(`hasOwnProperty && truthy && length > 0`) as a predicate. -/
def hasActiveFilter (tableFilters : TFRecord) (propertyName : String) : Bool :=
  match recGet tableFilters propertyName with
  | some (some (_ :: _)) => true
  | _ => false

/-- The last condition in a list carrying a given property, if any (JS record
assignment lets later conditions overwrite earlier ones). -/
def lastWith (items : List Condition) (p : String) : Option Condition :=
  match items with
  | [] => none
  | c :: rest =>
      match lastWith rest p with
      | some c' => some c'
      | none => if c.property = p then some c else none

/-- The record built by `entityFilterToTableFilters` from a list of plain
conditions. -/
def tfOfConds (items : List Condition) : TFRecord :=
  items.foldl (fun r c => recSet r c.property (some [encodeCell c])) []

/-- Fixture: a metadata store declaring every attribute a plain string. -/
def msStrFix : MainStore := ⟨fun _ _ => ⟨"p", "STRING", "string"⟩, []⟩

/-- Fixture: a metadata store declaring every attribute an ENUM. -/
def msEnumFix : MainStore := ⟨fun _ _ => ⟨"p", "ENUM", "TestEnum"⟩, []⟩

/-- Fixture: an empty data collection over entity `ent`. -/
def dcFix : DataCollectionStore Unit := ⟨"ent", none, none, none, none, 0, ()⟩

/-- Fixture: a data collection that already carries a filter, sort and
pagination state. -/
def dcFilledFix : DataCollectionStore Unit :=
  ⟨"ent", some ⟨[.cond ⟨"old", some (.str "="), .jv (.str "x")⟩]⟩,
   some "+old", some 5, some 10, 3, ()⟩

/-- Fixture: first of two conditions sharing the property `p`. -/
def condDupA : Condition := ⟨"p", some (.str "="), .jv (.str "v1")⟩

/-- Fixture: second of two conditions sharing the property `p`. -/
def condDupB : Condition := ⟨"p", some (.str "="), .jv (.str "v2")⟩

/-- Fixture: an entity filter with two plain conditions on the same property. -/
def efDup : EntityFilter := ⟨[.cond condDupA, .cond condDupB]⟩

/-- Fixture: a cell carrying an `inInterval` operator with a date range. -/
def cellIntervalFix : Json :=
  .obj [("operator", .str "inInterval"),
        ("value", .obj [("minDate", .str "2020-01-01"),
                        ("maxDate", .str "2020-12-31")])]

/-- Fixture: table filters with one interval cell under property `p`. -/
def tfIntervalFix : TFRecord := [("p", some [cellIntervalFix])]

/-- Fixture: table filters with one selected enum value under property `p`. -/
def tfEnumFix : TFRecord := [("p", some [Json.str "OPT_A"])]

/-- Fixture: a plain round-trippable condition. -/
def condRtFix : Condition := ⟨"name", some (.str "contains"), .jv (.str "abc")⟩

/-- Fixture: an entity filter with the single condition `condRtFix`. -/
def efRtFix : EntityFilter := ⟨[.cond condRtFix]⟩

/-- Fixture: one enumeration with a single value. -/
def enumInfoFix : EnumInfo := ⟨"TestEnum", [⟨"OPT_A", "Option A"⟩]⟩

/-- Fixture: a store whose metadata declares ENUM attributes of type
`TestEnum` and that knows the `TestEnum` enumeration. -/
def msEnumsFix : MainStore :=
  ⟨fun _ _ => ⟨"p", "ENUM", "TestEnum"⟩, [enumInfoFix]⟩

/-- Fixture: a column config over an ENUM property. -/
def cfgEnumFix : ColumnWithCustomFilterConfig := ⟨"p", "ent", none, true, msEnumsFix⟩

theorem combine_nil (acc : Option EntityFilter) : combine acc [] = acc := by
  cases acc with
  | none => rfl
  | some ef => simp [combine]

theorem combine_append (acc : Option EntityFilter) (cs ds : List FilterItem) :
    combine (combine acc cs) ds = combine acc (cs ++ ds) := by
  cases acc with
  | some ef => simp [combine]
  | none =>
      cases cs with
      | nil => simp [combine]
      | cons c cs' => simp [combine]

theorem setFiltersStep_eq_combine (tf : TFRecord) (ms : MainStore) (en : String)
    (acc : Option EntityFilter) (p : String) :
    setFiltersStep tf ms en acc p = combine acc (condsForField tf ms en p) := by
  unfold setFiltersStep condsForField
  cases hr : recGet tf p with
  | none => cases acc <;> simp [combine]
  | some v =>
      cases v with
      | none => cases acc <;> simp [combine]
      | some l =>
          cases l with
          | nil => cases acc <;> simp [combine]
          | cons c0 rest =>
              by_cases hE : (getPropertyInfoNN p en ms.metadata).attributeType = "ENUM"
              · cases acc <;> simp [hE, combine]
              · by_cases hI : isInIntervalOp (c0.lookupKey "operator")
                · cases acc <;> simp [hE, hI, combine]
                · cases acc <;> simp [hE, hI, combine]

theorem foldl_setFiltersStep (tf : TFRecord) (ms : MainStore) (en : String)
    (fields : List String) (acc : Option EntityFilter) :
    fields.foldl (setFiltersStep tf ms en) acc =
      combine acc (condsForFields tf ms en fields) := by
  induction fields generalizing acc with
  | nil => simp [condsForFields, combine_nil]
  | cons p rest ih =>
      simp only [List.foldl_cons, condsForFields]
      rw [ih, setFiltersStep_eq_combine, combine_append]

theorem setFilters_filter_eq {ρ : Type} (tf : TFRecord) (fields : List String)
    (ms : MainStore) (dc : DataCollectionStore ρ) :
    (setFilters (some tf) fields ms dc).filter =
      combine none (condsForFields tf ms dc.entityName fields) := by
  simp [setFilters, foldl_setFiltersStep]

theorem condsForField_of_inactive (tf : TFRecord) (ms : MainStore) (en : String)
    (p : String) (h : hasActiveFilter tf p = false) :
    condsForField tf ms en p = [] := by
  unfold condsForField
  unfold hasActiveFilter at h
  cases hr : recGet tf p with
  | none => rfl
  | some v =>
      cases v with
      | none => rfl
      | some l =>
          cases l with
          | nil => rfl
          | cons c0 rest => rw [hr] at h; simp at h

theorem condsForFields_of_inactive (tf : TFRecord) (ms : MainStore) (en : String)
    (fields : List String) (h : ∀ p ∈ fields, hasActiveFilter tf p = false) :
    condsForFields tf ms en fields = [] := by
  induction fields with
  | nil => rfl
  | cons p rest ih =>
      simp only [condsForFields]
      rw [condsForField_of_inactive tf ms en p (h p (List.mem_cons_self p rest)),
        ih (fun q hq => h q (List.mem_cons_of_mem p hq))]
      rfl

theorem recGet_recSet_self {α : Type} (r : List (String × α)) (k : String) (v : α) :
    recGet (recSet r k v) k = some v := by
  induction r with
  | nil => simp [recSet, recGet]
  | cons kv rest ih =>
      rcases kv with ⟨k', v'⟩
      by_cases h : k' = k <;> simp [recSet, recGet, h, ih]

theorem recGet_recSet_other {α : Type} (r : List (String × α)) (k k' : String)
    (v : α) (h : k ≠ k') : recGet (recSet r k v) k' = recGet r k' := by
  induction r with
  | nil => simp [recSet, recGet, h]
  | cons kv rest ih =>
      rcases kv with ⟨k0, v0⟩
      by_cases h0 : k0 = k
      · subst h0
        simp [recSet, recGet, h]
      · by_cases h1 : k0 = k' <;> simp [recSet, recGet, h0, h1, Ne.symm h, ih]

theorem lastWith_eq_none (items : List Condition) (p : String)
    (h : ∀ c ∈ items, c.property ≠ p) : lastWith items p = none := by
  induction items with
  | nil => rfl
  | cons c rest ih =>
      have hc := h c (List.mem_cons_self c rest)
      have hrest := ih (fun c' hc' => h c' (List.mem_cons_of_mem c hc'))
      simp [lastWith, hrest, hc]

theorem lastWith_of_nodup (items : List Condition) (c : Condition)
    (hnd : (items.map (fun c' => c'.property)).Nodup) (hc : c ∈ items) :
    lastWith items c.property = some c := by
  induction items with
  | nil => cases hc
  | cons d rest ih =>
      rw [List.map_cons, List.nodup_cons] at hnd
      rcases List.mem_cons.mp hc with heq | hc'
      · subst heq
        have hnone : lastWith rest c.property = none := by
          refine lastWith_eq_none rest c.property (fun e he heq => ?_)
          exact hnd.1 (heq ▸ List.mem_map_of_mem (fun c' => c'.property) he)
        simp [lastWith, hnone]
      · simp [lastWith, ih hnd.2 hc']

theorem recGet_tfOfConds_foldl (items : List Condition) (acc : TFRecord) (p : String) :
    recGet (items.foldl (fun r c => recSet r c.property (some [encodeCell c])) acc) p =
      match lastWith items p with
      | some c => some (some [encodeCell c])
      | none => recGet acc p := by
  induction items generalizing acc with
  | nil => rfl
  | cons c rest ih =>
      simp only [List.foldl_cons]
      rw [ih]
      cases hl : lastWith rest p with
      | some c' => simp [lastWith, hl]
      | none =>
          by_cases hp : c.property = p
          · subst hp
            simp [lastWith, hl, recGet_recSet_self]
          · simp [lastWith, hl, hp, recGet_recSet_other _ _ _ _ hp]

theorem recGet_tfOfConds (items : List Condition) (p : String) :
    recGet (tfOfConds items) p =
      Option.map (fun c => some [encodeCell c]) (lastWith items p) := by
  rw [tfOfConds, recGet_tfOfConds_foldl]
  cases lastWith items p <;> rfl

theorem entityFilterToTableFiltersAux_plain (items : List Condition) (acc : TFRecord) :
    entityFilterToTableFiltersAux (items.map FilterItem.cond) acc =
      .ok (items.foldl (fun r c => recSet r c.property (some [encodeCell c])) acc) := by
  induction items generalizing acc with
  | nil => rfl
  | cons c rest ih => simp [entityFilterToTableFiltersAux, ih]

theorem entityFilterToTableFilters_plain (items : List Condition) :
    entityFilterToTableFilters ⟨items.map FilterItem.cond⟩ = .ok (tfOfConds items) := by
  rw [entityFilterToTableFilters, tfOfConds]
  exact entityFilterToTableFiltersAux_plain items []

theorem encodeCell_lookup_operator (c : Condition) :
    (encodeCell c).lookupKey "operator" = c.operator := by
  rcases c with ⟨p, op, v⟩
  cases op <;> cases v <;> rfl

theorem encodeCell_lookup_value (c : Condition) :
    (encodeCell c).lookupKey "value" = c.value.toJsonOpt := by
  rcases c with ⟨p, op, v⟩
  cases op <;> cases v <;> rfl

theorem isInIntervalOp_eq_false_iff (o : Option Json) :
    isInIntervalOp o = false ↔ o ≠ some (Json.str "inInterval") := by
  cases o with
  | none => simp [isInIntervalOp]
  | some j => cases j <;> simp [isInIntervalOp]

theorem condsOfProp_append (xs ys : List FilterItem) (p : String) :
    condsOfProp (xs ++ ys) p = condsOfProp xs p ++ condsOfProp ys p := by
  simp [condsOfProp, List.filter_append]

theorem condsOfProp_condsForField (tf : TFRecord) (ms : MainStore) (en : String)
    (q p : String) :
    condsOfProp (condsForField tf ms en q) p =
      if q = p then condsForField tf ms en q else [] := by
  unfold condsForField
  cases hr : recGet tf q with
  | none => simp [condsOfProp]
  | some v =>
      cases v with
      | none => simp [condsOfProp]
      | some l =>
          cases l with
          | nil => simp [condsOfProp]
          | cons c0 rest =>
              by_cases hqp : q = p
              · subst hqp
                rw [if_pos rfl]
                by_cases h1 : (getPropertyInfoNN q en ms.metadata).attributeType = "ENUM"
                · simp [h1, condsOfProp]
                · by_cases h2 : isInIntervalOp (c0.lookupKey "operator") = true
                  · simp [h1, h2, condsOfProp]
                  · simp [h1, h2, condsOfProp]
              · rw [if_neg hqp]
                by_cases h1 : (getPropertyInfoNN q en ms.metadata).attributeType = "ENUM"
                · simp [h1, condsOfProp, hqp]
                · by_cases h2 : isInIntervalOp (c0.lookupKey "operator") = true
                  · simp [h1, h2, condsOfProp, hqp]
                  · simp [h1, h2, condsOfProp, hqp]

theorem condsOfProp_condsForFields (tf : TFRecord) (ms : MainStore) (en : String)
    (fields : List String) (p : String) :
    condsOfProp (condsForFields tf ms en fields) p =
      condsForFields tf ms en (fields.filter (fun q => decide (q = p))) := by
  induction fields with
  | nil => rfl
  | cons q rest ih =>
      rw [condsForFields, condsOfProp_append, condsOfProp_condsForField, ih]
      by_cases hqp : q = p
      · simp [List.filter_cons, hqp, condsForFields]
      · simp [List.filter_cons, hqp]

theorem filter_eq_singleton_of_count_one (fields : List String) (p : String)
    (h : fields.count p = 1) :
    fields.filter (fun q => decide (q = p)) = [p] := by
  induction fields with
  | nil => simp at h
  | cons q rest ih =>
      by_cases hqp : q = p
      · subst hqp
        rw [List.count_cons_self] at h
        have h0 : rest.count q = 0 := by omega
        have hnil : rest.filter (fun x => decide (x = q)) = [] := by
          rw [List.filter_eq_nil_iff]
          intro a ha hdec
          exact absurd (of_decide_eq_true hdec ▸ ha) (List.count_eq_zero.mp h0)
        simp [List.filter_cons, hnil]
      · rw [List.count_cons_of_ne (fun hpq => hqp hpq.symm)] at h
        simp [List.filter_cons, hqp, ih h]

theorem combine_none_eq_some (cs : List FilterItem) (h : cs ≠ []) :
    combine none cs = some ⟨cs⟩ := by
  cases cs with
  | nil => exact absurd rfl h
  | cons c rest => rfl

theorem condsForFields_of_roundtrip (tf : TFRecord) (ms : MainStore) (en : String)
    (items : List Condition)
    (hlook : ∀ c ∈ items, recGet tf c.property = some (some [encodeCell c]))
    (hne : ∀ c ∈ items,
      (getPropertyInfoNN c.property en ms.metadata).attributeType ≠ "ENUM")
    (hni : ∀ c ∈ items, c.operator ≠ some (Json.str "inInterval"))
    (hjv : ∀ c ∈ items, ∃ j, c.value = JsVal.jv j) :
    condsForFields tf ms en (items.map (fun c => c.property)) =
      items.map FilterItem.cond := by
  induction items with
  | nil => rfl
  | cons c rest ih =>
      simp only [List.map_cons]
      rw [condsForFields]
      have hmem := List.mem_cons_self c rest
      have hx : condsForField tf ms en c.property = [FilterItem.cond c] := by
        unfold condsForField
        rw [hlook c hmem]
        simp only [encodeCell_lookup_operator, encodeCell_lookup_value]
        rw [if_neg (hne c hmem)]
        rw [(isInIntervalOp_eq_false_iff c.operator).mpr (hni c hmem)]
        obtain ⟨j, hj⟩ := hjv c hmem
        rw [hj]
        simp only [JsVal.toJsonOpt, JsVal.ofOpt, Bool.false_eq_true, if_false]
        rw [← hj]
      rw [hx,
        ih (fun c' hc' => hlook c' (List.mem_cons_of_mem c hc'))
          (fun c' hc' => hne c' (List.mem_cons_of_mem c hc'))
          (fun c' hc' => hni c' (List.mem_cons_of_mem c hc'))
          (fun c' hc' => hjv c' (List.mem_cons_of_mem c hc'))]
      rfl

theorem entityFilterToTableFiltersAux_error_iff (items : List FilterItem)
    (acc : TFRecord) :
    (∃ e, entityFilterToTableFiltersAux items acc = .error e) ↔
      ∃ item ∈ items, item.isGroup = true := by
  induction items generalizing acc with
  | nil => simp [entityFilterToTableFiltersAux]
  | cons item rest ih =>
      cases item with
      | cond c => simp [entityFilterToTableFiltersAux, ih, FilterItem.isGroup]
      | group g gs => simp [entityFilterToTableFiltersAux, FilterItem.isGroup]

/-- C2 (amended): for every EntityFilter with at least one condition, whose
conditions are plain Conditions over pairwise-distinct properties, each of
non-ENUM attribute type, with operator other than `inInterval` and a
JSON-representable value, calling `setFilters` on the result of
`entityFilterToTableFilters` with `fields` listing exactly those properties in
the same order sets `dataCollection.filter` to an EntityFilter whose
conditions equal the original conditions.  (The original claim, without the
non-emptiness requirement, fails on the empty filter: see the
counterexample.) -/
theorem setFilters_entityFilter_roundtrip {ρ : Type} (ef : EntityFilter)
    (items : List Condition) (ms : MainStore) (dc : DataCollectionStore ρ)
    (hplain : ef.conditions = items.map FilterItem.cond)
    (hnonempty : items ≠ [])
    (hnd : (items.map (fun c => c.property)).Nodup)
    (hne : ∀ c ∈ items,
      (getPropertyInfoNN c.property dc.entityName ms.metadata).attributeType ≠ "ENUM")
    (hni : ∀ c ∈ items, c.operator ≠ some (Json.str "inInterval"))
    (hjv : ∀ c ∈ items, ∃ j, c.value = JsVal.jv j) :
    entityFilterToTableFilters ef = .ok (tfOfConds items) ∧
    (setFilters (some (tfOfConds items)) (items.map (fun c => c.property)) ms dc).filter
      = some ⟨ef.conditions⟩ := by
  constructor
  · rw [entityFilterToTableFilters, hplain, tfOfConds]
    exact entityFilterToTableFiltersAux_plain items []
  · have hlook : ∀ c ∈ items,
        recGet (tfOfConds items) c.property = some (some [encodeCell c]) := by
      intro c hc
      rw [recGet_tfOfConds, lastWith_of_nodup items c hnd hc]
      rfl
    rw [setFilters_filter_eq, condsForFields_of_roundtrip _ _ _ items hlook hne hni hjv,
      combine_none_eq_some _ (by simpa using hnonempty), hplain]

/-- Witness for the round-trip theorem at a one-condition string filter. -/
theorem setFilters_entityFilter_roundtrip_witness :
    entityFilterToTableFilters efRtFix = .ok (tfOfConds [condRtFix]) ∧
    (setFilters (some (tfOfConds [condRtFix])) ["name"] msStrFix dcFix).filter
      = some ⟨efRtFix.conditions⟩ := by
  refine setFilters_entityFilter_roundtrip efRtFix [condRtFix] msStrFix dcFix
    rfl (List.cons_ne_nil _ _) (by simp) ?_ ?_ ?_
  · intro c hc
    rcases List.mem_singleton.mp hc with rfl
    decide
  · intro c hc
    rcases List.mem_singleton.mp hc with rfl
    intro hcontra
    injection hcontra with h1
    injection h1 with h2
    exact absurd h2 (by decide)
  · intro c hc
    rcases List.mem_singleton.mp hc with rfl
    exact ⟨Json.str "abc", rfl⟩

/-- C2 (counterexample): the empty EntityFilter satisfies every hypothesis of
the original claim (vacuously), yet `setFilters` stores `undefined` rather
than an EntityFilter with an empty conditions list. -/
theorem setFilters_entityFilter_roundtrip_counterexample :
    entityFilterToTableFilters ⟨[]⟩ = .ok [] ∧
    (setFilters (some ([] : TFRecord)) [] msStrFix dcFilledFix).filter = none ∧
    (none : Option EntityFilter) ≠ some ⟨[]⟩ := by
  refine ⟨rfl, rfl, ?_⟩
  simp

/-- C3 (amended): `entityFilterToTableFilters` throws exactly when some
element of the conditions list is a nested conditions group; on a filter of
plain conditions it returns normally, mapping a property to the one-element
array holding the JSON string of the operator and value of the *last*
condition with that property — hence, for pairwise-distinct properties, of
the own operator and value of each condition.  (The original claim, which promises
every condition its own cell even when a later condition repeats the
property, fails: see the counterexample.) -/
theorem entityFilterToTableFilters_spec (ef : EntityFilter) :
    ((∃ e, entityFilterToTableFilters ef = .error e) ↔
      ∃ item ∈ ef.conditions, item.isGroup = true) ∧
    (∀ items : List Condition, ef.conditions = items.map FilterItem.cond →
      entityFilterToTableFilters ef = .ok (tfOfConds items) ∧
      ∀ p : String, recGet (tfOfConds items) p =
        Option.map (fun c => some [encodeCell c]) (lastWith items p)) ∧
    (∀ items : List Condition, ef.conditions = items.map FilterItem.cond →
      (items.map (fun c => c.property)).Nodup →
      ∀ c ∈ items,
        recGet (tfOfConds items) c.property = some (some [encodeCell c])) := by
  refine ⟨?_, ?_, ?_⟩
  · rw [entityFilterToTableFilters]
    exact entityFilterToTableFiltersAux_error_iff ef.conditions []
  · intro items hplain
    refine ⟨?_, fun p => recGet_tfOfConds items p⟩
    rw [entityFilterToTableFilters, hplain, tfOfConds]
    exact entityFilterToTableFiltersAux_plain items []
  · intro items hplain hnd c hc
    rw [recGet_tfOfConds, lastWith_of_nodup items c hnd hc]
    rfl

/-- Witness for the conversion theorem at a two-condition filter sharing one
property. -/
theorem entityFilterToTableFilters_spec_witness :
    entityFilterToTableFilters efDup = .ok (tfOfConds [condDupA, condDupB]) ∧
    recGet (tfOfConds [condDupA, condDupB]) "p" = some (some [encodeCell condDupB]) := by
  have h := (entityFilterToTableFilters_spec efDup).2.1 [condDupA, condDupB] rfl
  refine ⟨h.1, ?_⟩
  rw [h.2 "p"]
  rfl

/-- C3 (counterexample): with two conditions on the property `p`, the
converted record holds only the JSON cell of the second condition, which
differs from the cell of the first condition, so the property of the first
condition is not
mapped to the JSON string of its own operator and value. -/
theorem entityFilterToTableFilters_claim_counterexample :
    entityFilterToTableFilters efDup = .ok [("p", some [encodeCell condDupB])] ∧
    encodeCell condDupB ≠ encodeCell condDupA := by
  constructor
  · rfl
  · intro h
    rw [show encodeCell condDupB
          = Json.obj [("operator", .str "="), ("value", .str "v2")] from rfl,
        show encodeCell condDupA
          = Json.obj [("operator", .str "="), ("value", .str "v1")] from rfl] at h
    injection h with h1
    injection h1 with h2 h3
    injection h3 with h4 h5
    injection h4 with h6 h7
    injection h7 with h8
    exact absurd h8 (by decide)

/-- C9: whenever `tableFilters` is absent, or no property listed in `fields`
has a present, non-empty filter array in it, `setFilters` stores `undefined`
in `dataCollection.filter`, unconditionally overwriting any previous value. -/
theorem setFilters_clears_filter {ρ : Type} (tableFilters : Option TFRecord)
    (fields : List String) (ms : MainStore) (dc : DataCollectionStore ρ)
    (h : tableFilters = none ∨
      ∃ tf, tableFilters = some tf ∧ ∀ p ∈ fields, hasActiveFilter tf p = false) :
    (setFilters tableFilters fields ms dc).filter = none := by
  rcases h with rfl | ⟨tf, rfl, hin⟩
  · rfl
  · rw [setFilters_filter_eq, condsForFields_of_inactive tf ms dc.entityName fields hin]
    rfl

/-- Witness: absent table filters clear a previously stored filter. -/
theorem setFilters_clears_filter_witness :
    (setFilters (none : Option TFRecord) ["name"] msStrFix dcFilledFix).filter = none :=
  setFilters_clears_filter none ["name"] msStrFix dcFilledFix (Or.inl rfl)

/-- C4 (amended): for every property occurring exactly once in `fields`, of
declared attribute type ENUM and with a present, non-empty entry in
`tableFilters`, `setFilters` pushes exactly one condition for that property
onto `dataCollection.filter`, with operator `in` and the whole filter array as
its value.  (The loop pushes one such condition per occurrence of the
property in `fields`, so exactly one requires a single occurrence: see the
counterexample.) -/
theorem setFilters_enum_condition {ρ : Type} (tf : TFRecord) (fields : List String)
    (ms : MainStore) (dc : DataCollectionStore ρ) (p : String)
    (cell0 : Json) (restCells : List Json)
    (hcount : fields.count p = 1)
    (hget : recGet tf p = some (some (cell0 :: restCells)))
    (henum : (getPropertyInfoNN p dc.entityName ms.metadata).attributeType = "ENUM") :
    ∃ conds, (setFilters (some tf) fields ms dc).filter = some ⟨conds⟩ ∧
      condsOfProp conds p =
        [.cond ⟨p, some (.str "in"), .cells (cell0 :: restCells)⟩] := by
  have hfield : condsForField tf ms dc.entityName p =
      [.cond ⟨p, some (.str "in"), .cells (cell0 :: restCells)⟩] := by
    unfold condsForField
    simp [hget, henum]
  have hprop : condsOfProp (condsForFields tf ms dc.entityName fields) p =
      [.cond ⟨p, some (.str "in"), .cells (cell0 :: restCells)⟩] := by
    rw [condsOfProp_condsForFields, filter_eq_singleton_of_count_one fields p hcount,
      condsForFields, hfield, condsForFields]
    simp
  refine ⟨condsForFields tf ms dc.entityName fields, ?_, hprop⟩
  rw [setFilters_filter_eq]
  apply combine_none_eq_some
  intro hnil
  rw [hnil] at hprop
  simp [condsOfProp] at hprop

/-- Witness: one ENUM property listed once in `fields`. -/
theorem setFilters_enum_condition_witness :
    ∃ conds, (setFilters (some tfEnumFix) ["p"] msEnumFix dcFix).filter = some ⟨conds⟩ ∧
      condsOfProp conds "p" =
        [.cond ⟨"p", some (.str "in"), .cells [Json.str "OPT_A"]⟩] :=
  setFilters_enum_condition tfEnumFix ["p"] msEnumFix dcFix "p" (Json.str "OPT_A") []
    (by decide) rfl rfl

/-- C4 (counterexample): with the ENUM property listed twice in `fields`, the
loop pushes two conditions for it, so the clause `exactly one` of the original claim
fails. -/
theorem setFilters_enum_condition_counterexample :
    (setFilters (some tfEnumFix) ["p", "p"] msEnumFix dcFix).filter =
      some ⟨[.cond ⟨"p", some (.str "in"), .cells [Json.str "OPT_A"]⟩,
             .cond ⟨"p", some (.str "in"), .cells [Json.str "OPT_A"]⟩]⟩ ∧
    (condsOfProp [.cond ⟨"p", some (.str "in"), .cells [Json.str "OPT_A"]⟩,
                  .cond ⟨"p", some (.str "in"), .cells [Json.str "OPT_A"]⟩] "p").length = 2 ∧
    (2 : Nat) ≠ 1 := by
  refine ⟨rfl, rfl, by decide⟩

/-- C10 (amended): for every non-ENUM property occurring exactly once in
`fields` whose first table-filter cell parses to operator `inInterval` with a
value object containing `minDate` and `maxDate`, `setFilters` pushes exactly
two conditions for that property, in order `>=` of `minDate` then `<=` of
`maxDate`.  (As with C4, the pair is pushed once per occurrence of the
property in `fields`: see the counterexample.) -/
theorem setFilters_interval_conditions {ρ : Type} (tf : TFRecord)
    (fields : List String) (ms : MainStore) (dc : DataCollectionStore ρ)
    (p : String) (cell0 : Json) (restCells : List Json) (v mn mx : Json)
    (hcount : fields.count p = 1)
    (hget : recGet tf p = some (some (cell0 :: restCells)))
    (hne : (getPropertyInfoNN p dc.entityName ms.metadata).attributeType ≠ "ENUM")
    (hop : cell0.lookupKey "operator" = some (Json.str "inInterval"))
    (hval : cell0.lookupKey "value" = some v)
    (hmin : v.lookupKey "minDate" = some mn)
    (hmax : v.lookupKey "maxDate" = some mx) :
    ∃ conds, (setFilters (some tf) fields ms dc).filter = some ⟨conds⟩ ∧
      condsOfProp conds p =
        [.cond ⟨p, some (.str ">="), .jv mn⟩,
         .cond ⟨p, some (.str "<="), .jv mx⟩] := by
  have hfield : condsForField tf ms dc.entityName p =
      [.cond ⟨p, some (.str ">="), .jv mn⟩,
       .cond ⟨p, some (.str "<="), .jv mx⟩] := by
    unfold condsForField
    simp [hget, hne, hop, hval, isInIntervalOp, jsGetField, hmin, hmax, JsVal.ofOpt]
  have hprop : condsOfProp (condsForFields tf ms dc.entityName fields) p =
      [.cond ⟨p, some (.str ">="), .jv mn⟩,
       .cond ⟨p, some (.str "<="), .jv mx⟩] := by
    rw [condsOfProp_condsForFields, filter_eq_singleton_of_count_one fields p hcount,
      condsForFields, hfield, condsForFields]
    simp
  refine ⟨condsForFields tf ms dc.entityName fields, ?_, hprop⟩
  rw [setFilters_filter_eq]
  apply combine_none_eq_some
  intro hnil
  rw [hnil] at hprop
  simp [condsOfProp] at hprop

/-- Witness: one interval-filtered date property listed once in `fields`. -/
theorem setFilters_interval_conditions_witness :
    ∃ conds, (setFilters (some tfIntervalFix) ["p"] msStrFix dcFix).filter = some ⟨conds⟩ ∧
      condsOfProp conds "p" =
        [.cond ⟨"p", some (.str ">="), .jv (.str "2020-01-01")⟩,
         .cond ⟨"p", some (.str "<="), .jv (.str "2020-12-31")⟩] :=
  setFilters_interval_conditions tfIntervalFix ["p"] msStrFix dcFix "p"
    cellIntervalFix []
    (.obj [("minDate", .str "2020-01-01"), ("maxDate", .str "2020-12-31")])
    (.str "2020-01-01") (.str "2020-12-31")
    (by decide) rfl (by decide) rfl rfl rfl rfl

/-- C10 (counterexample): with the interval-filtered property listed twice in
`fields`, four conditions are pushed for it, so the clause `exactly two` of the original claim fails. -/
theorem setFilters_interval_conditions_counterexample :
    (setFilters (some tfIntervalFix) ["p", "p"] msStrFix dcFix).filter =
      some ⟨[.cond ⟨"p", some (.str ">="), .jv (.str "2020-01-01")⟩,
             .cond ⟨"p", some (.str "<="), .jv (.str "2020-12-31")⟩,
             .cond ⟨"p", some (.str ">="), .jv (.str "2020-01-01")⟩,
             .cond ⟨"p", some (.str "<="), .jv (.str "2020-12-31")⟩]⟩ ∧
    ([.cond ⟨"p", some (.str ">="), .jv (.str "2020-01-01")⟩,
      .cond ⟨"p", some (.str "<="), .jv (.str "2020-12-31")⟩,
      .cond ⟨"p", some (.str ">="), .jv (.str "2020-01-01")⟩,
      .cond ⟨"p", some (.str "<="), .jv (.str "2020-12-31")⟩] : List FilterItem).length = 4 ∧
    (4 : Nat) ≠ 2 := by
  refine ⟨rfl, rfl, by decide⟩

theorem toList_append (a b : String) : (a ++ b).toList = a.toList ++ b.toList :=
  String.data_append a b

theorem jsEndsWith_append (a b : String) : jsEndsWith (a ++ b) b = true := by
  unfold jsEndsWith
  rw [toList_append]
  simp [List.length_append, Nat.add_sub_cancel, List.drop_left]

theorem charIndexFrom_append_cons (al rest : List Char)
    (h : ('.' : Char) ∉ al) :
    charIndexFrom (al ++ '.' :: rest) '.' = some al.length := by
  induction al with
  | nil => simp [charIndexFrom]
  | cons a arest ih =>
      have ha : a ≠ '.' := fun hh => h (hh ▸ List.mem_cons_self a arest)
      have h' : ('.' : Char) ∉ arest := fun hm => h (List.mem_cons_of_mem a hm)
      simp [charIndexFrom, ha, ih h']

/-- C1 (amended): for every sorter whose order is `descend` and whose field
has the form X ++ `._instanceName` where X contains no dot, `setSorter` sets
`dataCollection.sort` to `-` ++ X.  (For an X that itself contains a dot the
code truncates at the *first* dot of the whole field, so the original
unrestricted claim fails: see the counterexample.) -/
theorem setSorter_descend_instanceName {ρ : Type} (x defaultSort : String)
    (dc : DataCollectionStore ρ) (hdot : ('.' : Char) ∉ x.toList) :
    (setSorter (some ⟨x ++ "._instanceName", some "descend"⟩) defaultSort dc).sort =
      some ("-" ++ x) := by
  have hsfx : ("._instanceName" : String).toList
      = '.' :: ("_instanceName" : String).toList := rfl
  have hlen : x.toList.length = x.length := rfl
  have hidx : jsIndexOf (x ++ "._instanceName") '.' = (x.length : Int) := by
    unfold jsIndexOf
    rw [toList_append, hsfx, charIndexFrom_append_cons _ _ hdot, hlen]
  have hsub : jsSubstringToIdx (x ++ "._instanceName") ((x.length : Nat) : Int)
      = x := by
    unfold jsSubstringToIdx
    rw [toList_append, ← hlen]
    simp [List.take_left]
  have hends : jsEndsWith (x ++ "._instanceName") "._instanceName" = true :=
    jsEndsWith_append x "._instanceName"
  unfold setSorter
  simp [hends, hidx, hsub]

/-- Witness: a descend sorter on `client._instanceName` yields `-client`. -/
theorem setSorter_descend_instanceName_witness :
    (setSorter (some ⟨"client" ++ "._instanceName", some "descend"⟩) "+id" dcFix).sort =
      some ("-" ++ "client") :=
  setSorter_descend_instanceName "client" "+id" dcFix (by decide)

/-- C1 (counterexample): for X = `a.b` (which contains a dot), the field
`a.b._instanceName` is truncated at its first dot, producing `-a` instead of
the claimed `-a.b`. -/
theorem setSorter_claim_counterexample :
    "a.b" ++ "._instanceName" = "a.b._instanceName" ∧
    (setSorter (some ⟨"a.b._instanceName", some "descend"⟩) "+id" dcFix).sort
      = some "-a" ∧
    ("-a" : String) ≠ "-" ++ "a.b" := by
  refine ⟨rfl, ?_, by decide⟩
  rfl

theorem dataIndexOfAttr_comp_assoc (aty p : String)
    (h : aty = "COMPOSITION" ∨ aty = "ASSOCIATION") :
    dataIndexOfAttr aty p = p ++ "._instanceName" := by
  rcases h with rfl | rfl <;> rfl

theorem dataIndexOfAttr_other (aty p : String) (h1 : aty ≠ "COMPOSITION")
    (h2 : aty ≠ "ASSOCIATION") : dataIndexOfAttr aty p = p := by
  unfold dataIndexOfAttr
  split
  · exact absurd rfl h1
  · exact absurd rfl h2
  · rfl

theorem generateColumn_dataIndex (config : ColumnWithCustomFilterConfig) :
    (generateColumnWithCustomFilter config).dataIndex =
      dataIndexOfAttr
        (getPropertyInfoNN config.propertyName config.entityName
          config.mainStore.metadata).attributeType config.propertyName := by
  unfold generateColumnWithCustomFilter
  by_cases hE : (getPropertyInfoNN config.propertyName config.entityName
      config.mainStore.metadata).attributeType = "ENUM" <;> simp [hE]

theorem generateColumn_filter_members (config : ColumnWithCustomFilterConfig) :
    (generateColumnWithCustomFilter config).filters =
      (if (getPropertyInfoNN config.propertyName config.entityName
            config.mainStore.metadata).attributeType = "ENUM" then
        some (generateEnumFilter
          (getPropertyInfoNN config.propertyName config.entityName
            config.mainStore.metadata) config.mainStore)
      else none) ∧
    (generateColumnWithCustomFilter config).filterDropdown =
      (if (getPropertyInfoNN config.propertyName config.entityName
            config.mainStore.metadata).attributeType = "ENUM" then false
       else true) := by
  unfold generateColumnWithCustomFilter
  by_cases hE : (getPropertyInfoNN config.propertyName config.entityName
      config.mainStore.metadata).attributeType = "ENUM" <;> simp [hE]

/-- C5: `generateColumnWithCustomFilter` branches on the declared attribute
type: COMPOSITION and ASSOCIATION columns get `dataIndex` of
`propertyName ++ "._instanceName"` while every other type keeps
`propertyName`; an ENUM column carries the filters list produced by
`generateEnumFilter` (and no custom dropdown), and every other type instead
carries the custom filter dropdown (and no filters list). -/
theorem generateColumnWithCustomFilter_spec (config : ColumnWithCustomFilterConfig) :
    ((getPropertyInfoNN config.propertyName config.entityName
        config.mainStore.metadata).attributeType = "COMPOSITION" ∨
     (getPropertyInfoNN config.propertyName config.entityName
        config.mainStore.metadata).attributeType = "ASSOCIATION" →
      (generateColumnWithCustomFilter config).dataIndex
        = config.propertyName ++ "._instanceName") ∧
    ((getPropertyInfoNN config.propertyName config.entityName
        config.mainStore.metadata).attributeType ≠ "COMPOSITION" →
     (getPropertyInfoNN config.propertyName config.entityName
        config.mainStore.metadata).attributeType ≠ "ASSOCIATION" →
      (generateColumnWithCustomFilter config).dataIndex = config.propertyName) ∧
    ((getPropertyInfoNN config.propertyName config.entityName
        config.mainStore.metadata).attributeType = "ENUM" →
      (generateColumnWithCustomFilter config).filters
        = some (generateEnumFilter
            (getPropertyInfoNN config.propertyName config.entityName
              config.mainStore.metadata) config.mainStore) ∧
      (generateColumnWithCustomFilter config).filterDropdown = false) ∧
    ((getPropertyInfoNN config.propertyName config.entityName
        config.mainStore.metadata).attributeType ≠ "ENUM" →
      (generateColumnWithCustomFilter config).filters = none ∧
      (generateColumnWithCustomFilter config).filterDropdown = true) := by
  refine ⟨?_, ?_, ?_, ?_⟩
  · intro h
    rw [generateColumn_dataIndex, dataIndexOfAttr_comp_assoc _ _ h]
  · intro h1 h2
    rw [generateColumn_dataIndex, dataIndexOfAttr_other _ _ h1 h2]
  · intro hE
    have h := generateColumn_filter_members config
    rw [h.1, h.2, if_pos hE, if_pos hE]
    exact ⟨rfl, rfl⟩
  · intro hE
    have h := generateColumn_filter_members config
    rw [h.1, h.2, if_neg hE, if_neg hE]
    exact ⟨rfl, rfl⟩

/-- Witness: an ENUM column gets the enum filters list (and no dropdown), and
its dataIndex is the plain property name. -/
theorem generateColumnWithCustomFilter_spec_witness :
    (generateColumnWithCustomFilter cfgEnumFix).filters
      = some (generateEnumFilter
          (getPropertyInfoNN cfgEnumFix.propertyName cfgEnumFix.entityName
            cfgEnumFix.mainStore.metadata) cfgEnumFix.mainStore) ∧
    (generateColumnWithCustomFilter cfgEnumFix).filterDropdown = false ∧
    (generateColumnWithCustomFilter cfgEnumFix).dataIndex = cfgEnumFix.propertyName := by
  have h := generateColumnWithCustomFilter_spec cfgEnumFix
  have h3 := h.2.2.1 rfl
  exact ⟨h3.1, h3.2, h.2.1 (by decide) (by decide)⟩

/-- C6: when both pageSize and current are present and non-zero,
`setPagination` writes `limit := pageSize` and
`offset := pageSize * (current - 1)`; otherwise it leaves both fields
unchanged. -/
theorem setPagination_spec {ρ : Type} (pagination : Option PaginationConfig)
    (dc : DataCollectionStore ρ) :
    (∀ ps cur, pagination = some ⟨some ps, some cur⟩ → ps ≠ 0 → cur ≠ 0 →
      (setPagination pagination dc).limit = some ps ∧
      (setPagination pagination dc).offset = some (ps * (cur - 1))) ∧
    ((pagination = none ∨
      ∃ pg, pagination = some pg ∧
        (pg.pageSize = none ∨ pg.current = none ∨
         pg.pageSize = some 0 ∨ pg.current = some 0)) →
      (setPagination pagination dc).limit = dc.limit ∧
      (setPagination pagination dc).offset = dc.offset) := by
  constructor
  · intro ps cur hpg hps hcur
    subst hpg
    simp [setPagination, hps, hcur]
  · intro h
    rcases h with rfl | ⟨pg, rfl, hbad⟩
    · exact ⟨rfl, rfl⟩
    · rcases pg with ⟨ps, cur⟩
      rcases ps with _ | ps
      · exact ⟨rfl, rfl⟩
      · rcases cur with _ | cur
        · exact ⟨rfl, rfl⟩
        · have hz : ps = 0 ∨ cur = 0 := by
            rcases hbad with h | h | h | h
            · exact absurd h (by simp)
            · exact absurd h (by simp)
            · exact Or.inl (Option.some.inj h)
            · exact Or.inr (Option.some.inj h)
          have hneg : ¬(ps ≠ 0 ∧ cur ≠ 0) := by
            rcases hz with rfl | rfl <;> simp
          simp [setPagination, hneg]

/-- Witness: pageSize 10 and current page 3 give limit 10 and offset 20. -/
theorem setPagination_spec_witness :
    (setPagination (some ⟨some 10, some 3⟩) dcFix).limit = some 10 ∧
    (setPagination (some ⟨some 10, some 3⟩) dcFix).offset = some 20 :=
  have h := (setPagination_spec (some ⟨some 10, some 3⟩) dcFix).1 10 3 rfl
    (by decide) (by decide)
  ⟨h.1, h.2⟩

theorem setSorter_preserves_loadEvents {ρ : Type} (sorter : Option SorterResult)
    (defaultSort : String) (dc : DataCollectionStore ρ) :
    (setSorter sorter defaultSort dc).loadEvents = dc.loadEvents := by
  rcases sorter with _ | ⟨f, o⟩
  · rfl
  · rcases o with _ | ord
    · rfl
    · by_cases h : ord = "" <;> simp [setSorter, h]

theorem setPagination_preserves_loadEvents {ρ : Type}
    (pagination : Option PaginationConfig) (dc : DataCollectionStore ρ) :
    (setPagination pagination dc).loadEvents = dc.loadEvents := by
  rcases pagination with _ | ⟨ps, cur⟩
  · rfl
  · rcases ps with _ | ps
    · rfl
    · rcases cur with _ | cur
      · rfl
      · by_cases h : ps ≠ 0 ∧ cur ≠ 0 <;> simp [setPagination, h]

/-- C7: the only dataCollection state mutated is `filter` for `setFilters`,
`sort` for `setSorter`, and `limit`/`offset` for `setPagination`; every other
field of the collection is preserved by each setter.  (The stores and the
tableFilters/sorter/pagination inputs are immutable values of the embedding,
so the setters cannot alter them.) -/
theorem setters_frame {ρ : Type} (tableFilters : Option TFRecord)
    (fields : List String) (ms : MainStore) (sorter : Option SorterResult)
    (defaultSort : String) (pagination : Option PaginationConfig)
    (dc : DataCollectionStore ρ) :
    ((setFilters tableFilters fields ms dc).entityName = dc.entityName ∧
     (setFilters tableFilters fields ms dc).sort = dc.sort ∧
     (setFilters tableFilters fields ms dc).limit = dc.limit ∧
     (setFilters tableFilters fields ms dc).offset = dc.offset ∧
     (setFilters tableFilters fields ms dc).loadEvents = dc.loadEvents ∧
     (setFilters tableFilters fields ms dc).rest = dc.rest) ∧
    ((setSorter sorter defaultSort dc).entityName = dc.entityName ∧
     (setSorter sorter defaultSort dc).filter = dc.filter ∧
     (setSorter sorter defaultSort dc).limit = dc.limit ∧
     (setSorter sorter defaultSort dc).offset = dc.offset ∧
     (setSorter sorter defaultSort dc).loadEvents = dc.loadEvents ∧
     (setSorter sorter defaultSort dc).rest = dc.rest) ∧
    ((setPagination pagination dc).entityName = dc.entityName ∧
     (setPagination pagination dc).filter = dc.filter ∧
     (setPagination pagination dc).sort = dc.sort ∧
     (setPagination pagination dc).loadEvents = dc.loadEvents ∧
     (setPagination pagination dc).rest = dc.rest) := by
  refine ⟨⟨rfl, rfl, rfl, rfl, rfl, rfl⟩, ?_, ?_⟩
  · rcases sorter with _ | ⟨f, o⟩
    · exact ⟨rfl, rfl, rfl, rfl, rfl, rfl⟩
    · rcases o with _ | ord
      · exact ⟨rfl, rfl, rfl, rfl, rfl, rfl⟩
      · by_cases h : ord = "" <;> simp [setSorter, h]
  · rcases pagination with _ | ⟨ps, cur⟩
    · exact ⟨rfl, rfl, rfl, rfl, rfl⟩
    · rcases ps with _ | ps
      · exact ⟨rfl, rfl, rfl, rfl, rfl⟩
      · rcases cur with _ | cur
        · exact ⟨rfl, rfl, rfl, rfl, rfl⟩
        · by_cases h : ps ≠ 0 ∧ cur ≠ 0 <;> simp [setPagination, h]

/-- C8: `handleTableChange` applies `setFilters`, then `setSorter`, then
`setPagination` to the dataCollection and afterwards calls `load()` exactly
once: its effect is the composition of the three setters followed by one
load, and the number of triggered loads grows by exactly one. -/
theorem handleTableChange_spec {ρ : Type} (dto : TableChangeDTO ρ) :
    handleTableChange dto =
      DataCollectionStore.load
        (setPagination dto.pagination
          (setSorter dto.sorter dto.defaultSort
            (setFilters dto.filters dto.fields dto.mainStore dto.dataCollection))) ∧
    (handleTableChange dto).loadEvents = dto.dataCollection.loadEvents + 1 := by
  constructor
  · rfl
  · have h1 : (setFilters dto.filters dto.fields dto.mainStore
        dto.dataCollection).loadEvents = dto.dataCollection.loadEvents := rfl
    have h2 := setSorter_preserves_loadEvents dto.sorter dto.defaultSort
      (setFilters dto.filters dto.fields dto.mainStore dto.dataCollection)
    have h3 := setPagination_preserves_loadEvents dto.pagination
      (setSorter dto.sorter dto.defaultSort
        (setFilters dto.filters dto.fields dto.mainStore dto.dataCollection))
    simp [handleTableChange, DataCollectionStore.load, h3, h2, h1]
